import Mathlib

/-!
Verification of the raspisong-app touch-input and display-driver core.

The definitions below are a shallow embedding of
`src/alpha/raspberry-pi-5-app/src/input/touch.py` (class `TouchHandler`)
and `src/alpha/raspberry-pi-5-app/src/display/screen.py` (class `Screen`).
Python's float arithmetic in `_map_coordinates` is modelled by exact
rational arithmetic, rendered as integer floor division (see the doc comment
on `mapCoordinates`), and the float brightness of `_set_backlight` by ℚ.
-/

namespace RaspiSong

/-! ### Coordinate mapper (`TouchHandler._map_coordinates`, touch.py:95-113) -/

/-- `TouchHandler.RAW_X_MIN` (touch.py:34). -/
def RAW_X_MIN : ℤ := 198
/-- `TouchHandler.RAW_X_MAX` (touch.py:35). -/
def RAW_X_MAX : ℤ := 3679
/-- `TouchHandler.RAW_Y_MIN` (touch.py:36). -/
def RAW_Y_MIN : ℤ := 292
/-- `TouchHandler.RAW_Y_MAX` (touch.py:37). -/
def RAW_Y_MAX : ℤ := 3800

/-- The constructor parameters of `TouchHandler.__init__` (touch.py:39-50)
that `_map_coordinates` reads. -/
structure TouchConfig where
  screen_width : ℕ
  screen_height : ℕ
  swap_axes : Bool
  deriving Repr, DecidableEq

/-- The defaults of `TouchHandler.__init__`: 240×320, axes swapped. -/
def defaultConfig : TouchConfig :=
  { screen_width := 240, screen_height := 320, swap_axes := true }

/-- `TouchHandler._map_coordinates` (touch.py:95-113): clamp each raw value
into its calibration range, normalize to `[0,1]`, optionally swap axes, scale
by the screen dimension and truncate with `int()`.  The Python code computes
`int(((r - MIN) / (MAX - MIN)) * dim)`; on the clamped (hence nonnegative)
values `int()` is the floor, and the floor of the exact rational
`(r - MIN) / (MAX - MIN) * dim` is the integer division
`(r - MIN) * dim / (MAX - MIN)` (Euclidean `/` on ℤ is floor division for a
positive divisor), which is how it is rendered here. -/
def mapCoordinates (cfg : TouchConfig) (raw_x raw_y : ℤ) : ℤ × ℤ :=
  let rx : ℤ := max RAW_X_MIN (min RAW_X_MAX raw_x)
  let ry : ℤ := max RAW_Y_MIN (min RAW_Y_MAX raw_y)
  if cfg.swap_axes then
    ((ry - RAW_Y_MIN) * cfg.screen_width / (RAW_Y_MAX - RAW_Y_MIN),
     (rx - RAW_X_MIN) * cfg.screen_height / (RAW_X_MAX - RAW_X_MIN))
  else
    ((rx - RAW_X_MIN) * cfg.screen_width / (RAW_X_MAX - RAW_X_MIN),
     (ry - RAW_Y_MIN) * cfg.screen_height / (RAW_Y_MAX - RAW_Y_MIN))

/-! ### Framebuffer codec (`Screen._display_image`, screen.py:214-244) -/

/-- The RGB565 packing of screen.py:237:
`rgb565 = ((r & 0xF8) << 8) | ((g & 0xFC) << 3) | (b >> 3)`. -/
def rgb565 (r g b : ℕ) : ℕ :=
  ((r &&& 0xF8) <<< 8) ||| ((g &&& 0xFC) <<< 3) ||| (b >>> 3)

/-- The two bytes written for one pixel at `pixel_buffer[i*2]` and
`pixel_buffer[i*2+1]` (screen.py:238-239): `rgb565 >> 8` then `rgb565 & 0xFF`. -/
def encodePixel (r g b : ℕ) : List ℕ :=
  [rgb565 r g b >>> 8, rgb565 r g b &&& 0xFF]

/-- `pixel_buffer` (screen.py:233-239): the bytes of all pixels in order,
two bytes per pixel. -/
def pixelBuffer (pixels : List (ℕ × ℕ × ℕ)) : List ℕ :=
  pixels.flatMap fun p => encodePixel p.1 p.2.1 p.2.2

/-- The chunking loop shared by `Screen._display_image` (screen.py:241-244)
and `Screen._write_data` (screen.py:132-135):
`for i in range(0, len(data), m): use data[i:i+m]`, rendered as the list of
those consecutive slices.  Python's `range` rejects a zero step, so the
`m = 0` case is arbitrary (empty here); every claim assumes `0 < m`. -/
def pyChunks {α : Type} (m : ℕ) : List α → List (List α)
  | [] => []
  | x :: xs =>
    if _hm : 0 < m then (x :: xs).take m :: pyChunks m ((x :: xs).drop m) else []
termination_by l => l.length
decreasing_by
  simp only [List.length_drop, List.length_cons]
  omega

/-! ### Backlight (`Screen._set_backlight`, screen.py:99-109) -/

/-- `Screen._set_backlight` (screen.py:99-109) on a PWM-capable backlight
(the `hasattr(self.bl_device, 'value')` branch): the value assigned to
`self.bl_device.value` is `brightness if on else 0.0` — there is no clamping
anywhere on that path. -/
def set_backlight_value (isOn : Bool) (brightness : ℚ) : ℚ :=
  if isOn then brightness else 0

/-! ### Touch event loop (`TouchHandler._read_events`, touch.py:141-178) -/

/-- One evdev event as consumed by `_read_events`: `EV_ABS`/`ABS_X`,
`EV_ABS`/`ABS_Y`, `EV_KEY`/`BTN_TOUCH` (value 1 = down, any other value =
up), or `EV_SYN`.  Events of other types are ignored by the loop and are
omitted from the model. -/
inductive Ev : Type
  | absX (v : ℤ)
  | absY (v : ℤ)
  | btnTouch (pressed : Bool)
  | syn
  deriving Repr, DecidableEq

/-- A registered touch region (`TouchHandler.register_region`,
touch.py:115-129): name, top-left corner and size.  Python keeps the regions
in the insertion-ordered dict `self.touch_regions`; registration order is the
list order here.  A region's callback firing is modelled by the `regionHit`
output carrying the region's name. -/
structure TouchRegion where
  name : String
  x : ℤ
  y : ℤ
  width : ℤ
  height : ℤ
  deriving Repr, DecidableEq

/-- An observable callback invocation performed by `_read_events`:
`on_touch_down`, `on_touch_up`, `on_touch_move`, or a region callback. -/
inductive TOut : Type
  | down (x y : ℤ)
  | up (x y : ℤ)
  | move (x y : ℤ)
  | regionHit (name : String) (x y : ℤ)
  deriving Repr, DecidableEq

/-- The state visible to `_read_events`: the loop-local accumulators
`raw_x, raw_y` (touch.py:146-147) and the instance fields
`touch_x, touch_y, is_touching` (touch.py:57-59). -/
structure TState where
  raw_x : ℤ
  raw_y : ℤ
  touch_x : ℤ
  touch_y : ℤ
  is_touching : Bool
  deriving Repr, DecidableEq

/-- The initial state: `raw_x = raw_y = 0` (touch.py:146-147) and
`touch_x = touch_y = 0`, `is_touching = False` (touch.py:57-59). -/
def initState : TState :=
  { raw_x := 0, raw_y := 0, touch_x := 0, touch_y := 0, is_touching := false }

/-- Modelled from the spec: `TouchHandler._check_regions` is called at
touch.py:167 but defined nowhere in the repository, so its body is taken
from spec §4.6: containment of a point in a region's rectangle `(x, y, w, h)`
is `x ≤ px < x + w` and `y ≤ py < y + h`. -/
def containsPoint (r : TouchRegion) (px py : ℤ) : Bool :=
  decide (r.x ≤ px ∧ px < r.x + r.width ∧ r.y ≤ py ∧ py < r.y + r.height)

/-- Modelled from the spec: `TouchHandler._check_regions` is called at
touch.py:167 but defined nowhere in the repository; spec §4.6 says on a down
event "evaluate all registered regions in registration order — the first
whose rectangle contains the mapped point receives the hit (its callback
fires); no further regions are checked for that event (first-match, not
best-match)". -/
def checkRegions : List TouchRegion → ℤ → ℤ → List TOut
  | [], _, _ => []
  | r :: rest, px, py =>
    if containsPoint r px py then [TOut.regionHit r.name px py]
    else checkRegions rest px py

/-- One iteration of the `for event in self.device.read_loop()` body
(touch.py:150-178): the successor state and the callback invocations fired
during that iteration, in order.
* `EV_ABS` events only update the raw accumulators (touch.py:154-158).
* `BTN_TOUCH` value 1 maps the current raw accumulators immediately, stores
  the point, fires `on_touch_down` and then `_check_regions`
  (touch.py:162-167).
* any other `BTN_TOUCH` value fires `on_touch_up` with the stored point
  (touch.py:168-171).
* `EV_SYN` while touching remaps the accumulators and fires `on_touch_move`
  only when the mapped point changed (touch.py:173-178). -/
def step (cfg : TouchConfig) (regions : List TouchRegion) (s : TState) :
    Ev → TState × List TOut
  | Ev.absX v => ({ s with raw_x := v }, [])
  | Ev.absY v => ({ s with raw_y := v }, [])
  | Ev.btnTouch true =>
      let p := mapCoordinates cfg s.raw_x s.raw_y
      ({ s with touch_x := p.1, touch_y := p.2, is_touching := true },
        TOut.down p.1 p.2 :: checkRegions regions p.1 p.2)
  | Ev.btnTouch false =>
      ({ s with is_touching := false }, [TOut.up s.touch_x s.touch_y])
  | Ev.syn =>
      if s.is_touching then
        let p := mapCoordinates cfg s.raw_x s.raw_y
        if p.1 ≠ s.touch_x ∨ p.2 ≠ s.touch_y then
          ({ s with touch_x := p.1, touch_y := p.2 }, [TOut.move p.1 p.2])
        else (s, [])
      else (s, [])

/-- Running the loop over a list of events, concatenating the outputs. -/
def run (cfg : TouchConfig) (regions : List TouchRegion) (s : TState) :
    List Ev → TState × List TOut
  | [] => (s, [])
  | e :: es =>
      let r1 := step cfg regions s e
      let r2 := run cfg regions r1.1 es
      (r2.1, r1.2 ++ r2.2)

/-- Specification predicate for C10: walking the output trace while tracking
the position recorded by the most recent `down` or `move` output (starting
from `p`), every `up` output reports exactly the tracked position. -/
def upsConsistent : List TOut → ℤ × ℤ → Prop
  | [], _ => True
  | TOut.down x y :: rest, _ => upsConsistent rest (x, y)
  | TOut.move x y :: rest, _ => upsConsistent rest (x, y)
  | TOut.up x y :: rest, p => (x, y) = p ∧ upsConsistent rest p
  | TOut.regionHit _ _ _ :: rest, p => upsConsistent rest p

/-- The position recorded by the most recent `down`/`move` in a trace,
starting from `p`. -/
def recPos : List TOut → ℤ × ℤ → ℤ × ℤ
  | [], p => p
  | TOut.down x y :: rest, _ => recPos rest (x, y)
  | TOut.move x y :: rest, _ => recPos rest (x, y)
  | TOut.up _ _ :: rest, p => recPos rest p
  | TOut.regionHit _ _ _ :: rest, p => recPos rest p

/-- The per-axis computation inside `_map_coordinates`: clamp into `[lo, hi]`,
subtract `lo`, scale by the screen dimension, floor-divide by the range. -/
lemma mapAxis_nonneg (lo hi v : ℤ) (dim : ℕ) (hlt : lo < hi) :
    0 ≤ (max lo (min hi v) - lo) * (dim : ℤ) / (hi - lo) := by
  apply Int.ediv_nonneg
  · apply mul_nonneg _ (Int.ofNat_nonneg dim)
    have : lo ≤ max lo (min hi v) := le_max_left _ _
    omega
  · omega

lemma mapAxis_le_dim (lo hi v : ℤ) (dim : ℕ) (hlt : lo < hi) :
    (max lo (min hi v) - lo) * (dim : ℤ) / (hi - lo) ≤ dim := by
  have hc : max lo (min hi v) ≤ hi := by
    apply max_le (le_of_lt hlt) (min_le_left _ _)
  have h1 : (max lo (min hi v) - lo) * (dim : ℤ) ≤ (hi - lo) * (dim : ℤ) :=
    mul_le_mul_of_nonneg_right (by omega) (Int.ofNat_nonneg dim)
  calc (max lo (min hi v) - lo) * (dim : ℤ) / (hi - lo)
      ≤ (hi - lo) * (dim : ℤ) / (hi - lo) := Int.ediv_le_ediv (by omega) h1
    _ = dim := Int.mul_ediv_cancel_left _ (by omega)

lemma mapAxis_mono (lo hi : ℤ) (dim : ℕ) (hlt : lo < hi) {v v' : ℤ} (h : v ≤ v') :
    (max lo (min hi v) - lo) * (dim : ℤ) / (hi - lo) ≤
      (max lo (min hi v') - lo) * (dim : ℤ) / (hi - lo) := by
  apply Int.ediv_le_ediv (by omega)
  apply mul_le_mul_of_nonneg_right _ (Int.ofNat_nonneg dim)
  have : min hi v ≤ min hi v' := min_le_min le_rfl h
  have : max lo (min hi v) ≤ max lo (min hi v') := max_le_max le_rfl this
  omega

/-- **C2**, as stated, is false at the calibration maximum: with the default
240×320 swapped-axes configuration, the raw sample (`RAW_X_MAX`, `RAW_Y_MIN`)
maps the x-axis (which feeds screen y under the swap) to pixel 320, not to
`screen_height - 1 = 319`. -/
theorem C2_counterexample :
    (mapCoordinates defaultConfig RAW_X_MAX RAW_Y_MIN).2 = 320 ∧
      ((defaultConfig.screen_height : ℤ) - 1 = 319) ∧
      (mapCoordinates defaultConfig RAW_X_MAX RAW_Y_MIN).2 ≠
        (defaultConfig.screen_height : ℤ) - 1 := by
  decide

/-- **C2 (amended)**: for each axis, a raw value exactly at the calibration
minimum maps to screen pixel 0, but a raw value exactly at the calibration
maximum maps to the full screen dimension (`width` resp. `height`, one past
the last valid pixel), not to `dimension - 1`. -/
theorem C2_amended (cfg : TouchConfig) :
    mapCoordinates cfg RAW_X_MIN RAW_Y_MIN = (0, 0) ∧
      mapCoordinates cfg RAW_X_MAX RAW_Y_MAX =
        ((cfg.screen_width : ℤ), (cfg.screen_height : ℤ)) := by
  obtain ⟨w, h, swap⟩ := cfg
  cases swap <;>
    simp [mapCoordinates, RAW_X_MIN, RAW_X_MAX, RAW_Y_MIN, RAW_Y_MAX,
      Int.mul_ediv_cancel_left]

/-- **C3**, as stated, is false: at the raw calibration maxima the mapped
point of the default 240×320 configuration is (240, 320), which violates both
strict bounds `x < screen_width` and `y < screen_height`. -/
theorem C3_counterexample :
    ¬ ((mapCoordinates defaultConfig RAW_X_MAX RAW_Y_MAX).1 <
          (defaultConfig.screen_width : ℤ) ∧
        (mapCoordinates defaultConfig RAW_X_MAX RAW_Y_MAX).2 <
          (defaultConfig.screen_height : ℤ)) := by
  decide

/-- **C3 (amended)**: for every raw input pair, the mapped screen point
satisfies the inclusive bounds `0 ≤ x ≤ screen_width` and
`0 ≤ y ≤ screen_height`; the upper bound is attained (only) at the raw
calibration maximum, so the strict invariant `x < width, y < height` of the
claim does not hold. -/
theorem C3_amended (cfg : TouchConfig) (raw_x raw_y : ℤ) :
    0 ≤ (mapCoordinates cfg raw_x raw_y).1 ∧
      (mapCoordinates cfg raw_x raw_y).1 ≤ cfg.screen_width ∧
      0 ≤ (mapCoordinates cfg raw_x raw_y).2 ∧
      (mapCoordinates cfg raw_x raw_y).2 ≤ cfg.screen_height := by
  obtain ⟨w, h, swap⟩ := cfg
  have hx : RAW_X_MIN < RAW_X_MAX := by norm_num [RAW_X_MIN, RAW_X_MAX]
  have hy : RAW_Y_MIN < RAW_Y_MAX := by norm_num [RAW_Y_MIN, RAW_Y_MAX]
  cases swap <;>
    simp only [mapCoordinates] <;>
    exact ⟨mapAxis_nonneg _ _ _ _ (by assumption),
           mapAxis_le_dim _ _ _ _ (by assumption),
           mapAxis_nonneg _ _ _ _ (by assumption),
           mapAxis_le_dim _ _ _ _ (by assumption)⟩

/-- **C6**: the coordinate mapper is monotonic in each raw axis.  Varying one
raw axis value while holding the other fixed, a larger raw value never
produces a smaller mapped value in either component of the mapped screen
point (the component fed by the varied axis is monotone; the other component
is unchanged). -/
theorem C6_mapper_monotonic (cfg : TouchConfig) (r r' o : ℤ) (h : r ≤ r') :
    ((mapCoordinates cfg r o).1 ≤ (mapCoordinates cfg r' o).1 ∧
      (mapCoordinates cfg r o).2 ≤ (mapCoordinates cfg r' o).2) ∧
    ((mapCoordinates cfg o r).1 ≤ (mapCoordinates cfg o r').1 ∧
      (mapCoordinates cfg o r).2 ≤ (mapCoordinates cfg o r').2) := by
  obtain ⟨w, hgt, swap⟩ := cfg
  have hx : RAW_X_MIN < RAW_X_MAX := by norm_num [RAW_X_MIN, RAW_X_MAX]
  have hy : RAW_Y_MIN < RAW_Y_MAX := by norm_num [RAW_Y_MIN, RAW_Y_MAX]
  cases swap
  · simp only [mapCoordinates]
    exact ⟨⟨mapAxis_mono _ _ _ hx h, le_rfl⟩, le_rfl, mapAxis_mono _ _ _ hy h⟩
  · simp only [mapCoordinates]
    exact ⟨⟨le_rfl, mapAxis_mono _ _ _ hx h⟩, mapAxis_mono _ _ _ hy h, le_rfl⟩

/-- Witness for `C6_mapper_monotonic` at a concrete input. -/
theorem C6_mapper_monotonic_witness :
    ((mapCoordinates defaultConfig 1000 2000).1 ≤ (mapCoordinates defaultConfig 1500 2000).1 ∧
      (mapCoordinates defaultConfig 1000 2000).2 ≤ (mapCoordinates defaultConfig 1500 2000).2) ∧
    ((mapCoordinates defaultConfig 2000 1000).1 ≤ (mapCoordinates defaultConfig 2000 1500).1 ∧
      (mapCoordinates defaultConfig 2000 1000).2 ≤ (mapCoordinates defaultConfig 2000 1500).2) :=
  C6_mapper_monotonic defaultConfig 1000 1500 2000 (by decide)

/-! ### RGB565 byte-level facts -/

set_option maxRecDepth 4096 in
lemma mask248 : ∀ r < 256, r &&& 0xF8 = r / 8 * 8 := by decide

set_option maxRecDepth 4096 in
lemma mask252 : ∀ g < 256, g &&& 0xFC = g / 4 * 4 := by decide

set_option maxRecDepth 4096 in
lemma maskE0 : ∀ g < 256, (g <<< 3) &&& 0xE0 = g % 32 / 4 * 32 := by decide

/-- Arithmetic value of the packed 16-bit word: red in bits 11-15, green in
bits 5-10, blue in bits 0-4. -/
lemma rgb565_eq (r g b : ℕ) (hr : r < 256) (hg : g < 256) (hb : b < 256) :
    rgb565 r g b = 2048 * (r / 8) + 32 * (g / 4) + b / 8 := by
  unfold rgb565
  rw [mask248 r hr, mask252 g hg, Nat.shiftLeft_eq, Nat.shiftLeft_eq,
    Nat.shiftRight_eq_div_pow]
  have e1 : r / 8 * 8 * 2 ^ 8 = 2 ^ 11 * (r / 8) := by ring
  have e2 : g / 4 * 4 * 2 ^ 3 = 32 * (g / 4) := by ring
  rw [e1, e2]
  have hb1 : 32 * (g / 4) < 2 ^ 11 := by omega
  rw [← Nat.mul_add_lt_is_or hb1 (r / 8)]
  have e3 : 2 ^ 11 * (r / 8) + 32 * (g / 4) = 2 ^ 5 * (64 * (r / 8) + g / 4) := by
    ring
  rw [e3]
  have hb2 : b / 2 ^ 3 < 2 ^ 5 := by omega
  rw [← Nat.mul_add_lt_is_or hb2 (64 * (r / 8) + g / 4)]
  have e4 : (2 : ℕ) ^ 5 = 32 := by norm_num
  have e5 : (2 : ℕ) ^ 3 = 8 := by norm_num
  rw [e4, e5]
  ring

lemma encode_hi (r g b : ℕ) (hr : r < 256) (hg : g < 256) (hb : b < 256) :
    rgb565 r g b >>> 8 = (r &&& 0xF8) ||| (g >>> 5) := by
  rw [rgb565_eq r g b hr hg hb, Nat.shiftRight_eq_div_pow, mask248 r hr,
    Nat.shiftRight_eq_div_pow]
  have e1 : r / 8 * 8 = 2 ^ 3 * (r / 8) := by ring
  rw [e1, ← Nat.mul_add_lt_is_or (show g / 2 ^ 5 < 2 ^ 3 by omega) (r / 8)]
  have e2 : (2 : ℕ) ^ 3 = 8 := by norm_num
  have e3 : (2 : ℕ) ^ 5 = 32 := by norm_num
  have e4 : (2 : ℕ) ^ 8 = 256 := by norm_num
  rw [e2, e3, e4]
  omega

lemma encode_lo (r g b : ℕ) (hr : r < 256) (hg : g < 256) (hb : b < 256) :
    rgb565 r g b &&& 0xFF = ((g <<< 3) &&& 0xE0) ||| (b >>> 3) := by
  rw [rgb565_eq r g b hr hg hb, show (0xFF : ℕ) = 2 ^ 8 - 1 by norm_num,
    Nat.and_pow_two_sub_one_eq_mod, maskE0 g hg, Nat.shiftRight_eq_div_pow]
  have e1 : g % 32 / 4 * 32 = 2 ^ 5 * (g % 32 / 4) := by ring
  rw [e1, ← Nat.mul_add_lt_is_or (show b / 2 ^ 3 < 2 ^ 5 by omega) (g % 32 / 4)]
  have e4 : (2 : ℕ) ^ 8 = 256 := by norm_num
  have e5 : (2 : ℕ) ^ 5 = 32 := by norm_num
  have e6 : (2 : ℕ) ^ 3 = 8 := by norm_num
  rw [e4, e5, e6]
  omega

/-- **C4**: the encoder emits exactly two bytes per pixel, and for byte
components `r,g,b` the first (high) byte is `(r&0xF8)|(g>>5)` and the second
(low) byte is `((g<<3)&0xE0)|(b>>3)` — standard RGB565 packing. -/
theorem C4_rgb565_packing (pixels : List (ℕ × ℕ × ℕ)) (r g b : ℕ)
    (hr : r < 256) (hg : g < 256) (hb : b < 256) :
    (pixelBuffer pixels).length = 2 * pixels.length ∧
      encodePixel r g b =
        [(r &&& 0xF8) ||| (g >>> 5), ((g <<< 3) &&& 0xE0) ||| (b >>> 3)] := by
  constructor
  · induction pixels with
    | nil => simp [pixelBuffer]
    | cons p t ih =>
        simp only [pixelBuffer, List.flatMap_cons, List.length_append,
          List.length_cons] at ih ⊢
        simp [encodePixel] at ih ⊢
        omega
  · simp [encodePixel, encode_hi r g b hr hg hb, encode_lo r g b hr hg hb]

/-- Witness for `C4_rgb565_packing` at the concrete pixel (255, 128, 64). -/
theorem C4_rgb565_packing_witness :
    (pixelBuffer [(255, 128, 64)]).length = 2 * [((255 : ℕ), (128 : ℕ), (64 : ℕ))].length ∧
      encodePixel 255 128 64 =
        [(255 &&& 0xF8) ||| (128 >>> 5), ((128 <<< 3) &&& 0xE0) ||| (64 >>> 3)] :=
  C4_rgb565_packing [(255, 128, 64)] 255 128 64 (by decide) (by decide) (by decide)

/-! ### Backlight claims -/

/-- **C9**, as stated, is false: `_set_backlight(True, 2)` assigns the raw
value 2 to the PWM intensity control, while the clamp of 2 into `[0,1]` is 1;
out-of-range brightness values are passed through unclamped. -/
theorem C9_counterexample :
    set_backlight_value true 2 = 2 ∧ min 1 (max 0 (2 : ℚ)) = 1 ∧
      set_backlight_value true 2 ≠ min 1 (max 0 (2 : ℚ)) := by
  refine ⟨rfl, by norm_num, by norm_num [set_backlight_value]⟩

/-- **C9 (amended)**: when the backlight is turned on, the brightness value
applied to the intensity control is exactly the brightness argument, with no
clamping at all; when it is turned off, 0 is applied regardless of the
brightness argument. -/
theorem C9_amended (brightness : ℚ) :
    set_backlight_value true brightness = brightness ∧
      set_backlight_value false brightness = 0 := by
  exact ⟨rfl, rfl⟩

/-! ### Chunking claims -/

lemma pyChunks_nil {α : Type} (m : ℕ) : pyChunks m ([] : List α) = [] := by
  rw [pyChunks]

lemma pyChunks_cons {α : Type} (m : ℕ) (hm : 0 < m) (l : List α) (hl : l ≠ []) :
    pyChunks m l = l.take m :: pyChunks m (l.drop m) := by
  cases l with
  | nil => exact absurd rfl hl
  | cons x xs => rw [pyChunks, dif_pos hm]

lemma pyChunks_eq_nil_iff {α : Type} (m : ℕ) (hm : 0 < m) (l : List α) :
    pyChunks m l = [] ↔ l = [] := by
  constructor
  · intro h
    by_contra hl
    rw [pyChunks_cons m hm l hl] at h
    exact List.cons_ne_nil _ _ h
  · intro h; subst h; exact pyChunks_nil m

/-- Concatenating the chunks reproduces the buffer. -/
lemma pyChunks_flatten {α : Type} (m : ℕ) (hm : 0 < m) (l : List α) :
    (pyChunks m l).flatten = l := by
  have H : ∀ n (l : List α), l.length ≤ n → (pyChunks m l).flatten = l := by
    intro n
    induction n with
    | zero =>
        intro l hl
        have : l = [] := List.eq_nil_of_length_eq_zero (by omega)
        subst this
        simp [pyChunks_nil]
    | succ n ih =>
        intro l hl
        rcases eq_or_ne l [] with rfl | hne
        · simp [pyChunks_nil]
        · rw [pyChunks_cons m hm l hne, List.flatten_cons]
          rw [ih (l.drop m) ?_]
          · exact List.take_append_drop m l
          · have : 0 < l.length := List.length_pos.mpr hne
            simp only [List.length_drop]
            omega
  exact H l.length l le_rfl

/-- The number of chunks is `⌈L / m⌉ = (L + m - 1) / m`. -/
lemma pyChunks_length_eq {α : Type} (m : ℕ) (hm : 0 < m) (l : List α) :
    (pyChunks m l).length = (l.length + m - 1) / m := by
  have H : ∀ n (l : List α), l.length ≤ n →
      (pyChunks m l).length = (l.length + m - 1) / m := by
    intro n
    induction n with
    | zero =>
        intro l hl
        have : l = [] := List.eq_nil_of_length_eq_zero (by omega)
        subst this
        simp [pyChunks_nil, Nat.div_eq_of_lt (show m - 1 < m by omega)]
    | succ n ih =>
        intro l hl
        rcases eq_or_ne l [] with rfl | hne
        · simp [pyChunks_nil, Nat.div_eq_of_lt (show m - 1 < m by omega)]
        · have hL : 0 < l.length := List.length_pos.mpr hne
          rw [pyChunks_cons m hm l hne, List.length_cons,
            ih (l.drop m) (by simp only [List.length_drop]; omega)]
          simp only [List.length_drop]
          rcases le_or_lt l.length m with hle | hlt
          · rw [show l.length - m + m - 1 = m - 1 by omega,
              Nat.div_eq_of_lt (show m - 1 < m by omega),
              show l.length + m - 1 = (l.length - 1) + m by omega,
              Nat.add_div_right _ hm,
              Nat.div_eq_of_lt (show l.length - 1 < m by omega)]
          · rw [show l.length - m + m - 1 = (l.length - m - 1) + m by omega,
              Nat.add_div_right _ hm,
              show l.length + m - 1 = ((l.length - m - 1) + m) + m by omega,
              Nat.add_div_right _ hm, Nat.add_div_right _ hm]
  exact H l.length l le_rfl

/-- Every chunk has at most `m` elements. -/
lemma pyChunks_le {α : Type} (m : ℕ) (hm : 0 < m) (l : List α) :
    ∀ c ∈ pyChunks m l, c.length ≤ m := by
  have H : ∀ n (l : List α), l.length ≤ n →
      ∀ c ∈ pyChunks m l, c.length ≤ m := by
    intro n
    induction n with
    | zero =>
        intro l hl
        have : l = [] := List.eq_nil_of_length_eq_zero (by omega)
        subst this
        simp [pyChunks_nil]
    | succ n ih =>
        intro l hl c hc
        rcases eq_or_ne l [] with rfl | hne
        · simp [pyChunks_nil] at hc
        · have hL : 0 < l.length := List.length_pos.mpr hne
          rw [pyChunks_cons m hm l hne, List.mem_cons] at hc
          rcases hc with rfl | hc
          · simp only [List.length_take]
            omega
          · exact ih (l.drop m) (by simp only [List.length_drop]; omega) c hc
  exact H l.length l le_rfl

/-- Every chunk except possibly the last has exactly `m` elements. -/
lemma pyChunks_dropLast {α : Type} (m : ℕ) (hm : 0 < m) (l : List α) :
    ∀ c ∈ (pyChunks m l).dropLast, c.length = m := by
  have H : ∀ n (l : List α), l.length ≤ n →
      ∀ c ∈ (pyChunks m l).dropLast, c.length = m := by
    intro n
    induction n with
    | zero =>
        intro l hl
        have : l = [] := List.eq_nil_of_length_eq_zero (by omega)
        subst this
        simp [pyChunks_nil]
    | succ n ih =>
        intro l hl c hc
        rcases eq_or_ne l [] with rfl | hne
        · simp [pyChunks_nil] at hc
        · have hL : 0 < l.length := List.length_pos.mpr hne
          rw [pyChunks_cons m hm l hne] at hc
          rcases eq_or_ne (pyChunks m (l.drop m)) [] with hrest | hrest
          · rw [hrest] at hc
            simp at hc
          · rw [List.dropLast_cons_of_ne_nil hrest, List.mem_cons] at hc
            rcases hc with rfl | hc
            · have hdrop : l.drop m ≠ [] := (pyChunks_eq_nil_iff m hm _).not.mp hrest
              have : 0 < (l.drop m).length := List.length_pos.mpr hdrop
              simp only [List.length_drop] at this
              simp only [List.length_take]
              omega
            · exact ih (l.drop m) (by simp only [List.length_drop]; omega) c hc
  exact H l.length l le_rfl

/-- When `m` divides the buffer length, every chunk (the last included) has
exactly `m` elements. -/
lemma pyChunks_dvd {α : Type} (m : ℕ) (hm : 0 < m) (l : List α)
    (hd : m ∣ l.length) : ∀ c ∈ pyChunks m l, c.length = m := by
  have H : ∀ n (l : List α), l.length ≤ n → m ∣ l.length →
      ∀ c ∈ pyChunks m l, c.length = m := by
    intro n
    induction n with
    | zero =>
        intro l hl _
        have : l = [] := List.eq_nil_of_length_eq_zero (by omega)
        subst this
        simp [pyChunks_nil]
    | succ n ih =>
        intro l hl hd c hc
        rcases eq_or_ne l [] with rfl | hne
        · simp [pyChunks_nil] at hc
        · have hL : 0 < l.length := List.length_pos.mpr hne
          have hmL : m ≤ l.length := Nat.le_of_dvd hL hd
          rw [pyChunks_cons m hm l hne, List.mem_cons] at hc
          rcases hc with rfl | hc
          · simp only [List.length_take]
            omega
          · have hd' : m ∣ (l.drop m).length := by
              simp only [List.length_drop]
              exact (Nat.dvd_sub' hd dvd_rfl)
            exact ih (l.drop m) (by simp only [List.length_drop]; omega) hd' c hc
  exact H l.length l le_rfl hd

/-- **C5**: for every chunk size `m > 0` and buffer `l`, the chunking loop
yields exactly `⌈|l| / m⌉` consecutive slices, none longer than `m`, all of
length `m` except possibly the last, with the last shorter only when `m` does
not divide `|l|` (when it does divide, every slice has length `m`), and the
concatenation of the slices is `l`. -/
theorem C5_chunking {α : Type} (m : ℕ) (l : List α) (hm : 0 < m) :
    (pyChunks m l).length = (l.length + m - 1) / m ∧
      (∀ c ∈ pyChunks m l, c.length ≤ m) ∧
      (∀ c ∈ (pyChunks m l).dropLast, c.length = m) ∧
      (m ∣ l.length → ∀ c ∈ pyChunks m l, c.length = m) ∧
      (pyChunks m l).flatten = l :=
  ⟨pyChunks_length_eq m hm l, pyChunks_le m hm l, pyChunks_dropLast m hm l,
    fun hd => pyChunks_dvd m hm l hd, pyChunks_flatten m hm l⟩

/-- Witness for `C5_chunking` with `m = 3` and an 8-byte buffer. -/
theorem C5_chunking_witness :
    (pyChunks 3 [0, 1, 2, 3, 4, 5, 6, 7]).length =
        (([0, 1, 2, 3, 4, 5, 6, 7] : List ℕ).length + 3 - 1) / 3 ∧
      (∀ c ∈ pyChunks 3 ([0, 1, 2, 3, 4, 5, 6, 7] : List ℕ), c.length ≤ 3) ∧
      (∀ c ∈ (pyChunks 3 ([0, 1, 2, 3, 4, 5, 6, 7] : List ℕ)).dropLast,
        c.length = 3) ∧
      (3 ∣ ([0, 1, 2, 3, 4, 5, 6, 7] : List ℕ).length →
        ∀ c ∈ pyChunks 3 ([0, 1, 2, 3, 4, 5, 6, 7] : List ℕ), c.length = 3) ∧
      (pyChunks 3 ([0, 1, 2, 3, 4, 5, 6, 7] : List ℕ)).flatten =
        [0, 1, 2, 3, 4, 5, 6, 7] :=
  C5_chunking 3 [0, 1, 2, 3, 4, 5, 6, 7] (by decide)

/-! ### Event-loop claims -/

/-- Every output of `checkRegions` is a region hit at the queried point. -/
lemma checkRegions_mem (regions : List TouchRegion) (px py : ℤ) :
    ∀ o ∈ checkRegions regions px py, ∃ n, o = TOut.regionHit n px py := by
  induction regions with
  | nil => simp [checkRegions]
  | cons r rest ih =>
      intro o ho
      simp only [checkRegions] at ho
      by_cases h : containsPoint r px py
      · rw [if_pos h] at ho
        simp at ho
        exact ⟨r.name, by simp [ho]⟩
      · rw [if_neg h] at ho
        exact ih o ho

/-- **C1**: on a touch-down event whose mapped point is contained in both
registered regions A (registered first) and B (registered second), the fired
callbacks are exactly `on_touch_down` followed by A's region callback — B's
callback does not fire, because evaluation proceeds in registration order
and stops at the first containing region. -/
theorem C1_first_match_dispatch (cfg : TouchConfig) (A B : TouchRegion)
    (s : TState) (px py : ℤ)
    (hmap : mapCoordinates cfg s.raw_x s.raw_y = (px, py))
    (hA : containsPoint A px py = true) (_hB : containsPoint B px py = true) :
    (step cfg [A, B] s (Ev.btnTouch true)).2 =
      [TOut.down px py, TOut.regionHit A.name px py] := by
  simp [step, checkRegions, hmap, hA]

/-- Witness for `C1_first_match_dispatch`: overlapping regions "A" and "B"
both containing the mapped point (0, 0). -/
theorem C1_first_match_dispatch_witness :
    (step defaultConfig [⟨"A", 0, 0, 100, 100⟩, ⟨"B", 0, 0, 50, 50⟩]
        initState (Ev.btnTouch true)).2 =
      [TOut.down 0 0, TOut.regionHit "A" 0 0] :=
  C1_first_match_dispatch defaultConfig ⟨"A", 0, 0, 100, 100⟩
    ⟨"B", 0, 0, 50, 50⟩ initState 0 0 (by decide) (by decide) (by decide)

/-- **C7**, as stated, is false: the classifier does not wait for a sync
boundary before acting on `BTN_TOUCH`.  The same frame
`{ABS_X 3679, ABS_Y 3800, BTN_TOUCH 1, SYN}` delivered with `BTN_TOUCH`
after the sync-complete axis pair yields a down at (240, 320), but delivered
with `BTN_TOUCH` between the two axis updates yields a down at (0, 320) —
the new X combined with the stale initial Y — followed by a corrective move
to (240, 320) at the sync boundary. -/
theorem C7_counterexample :
    (run defaultConfig [] initState
        [Ev.absX 3679, Ev.absY 3800, Ev.btnTouch true, Ev.syn]).2 =
      [TOut.down 240 320] ∧
      (run defaultConfig [] initState
          [Ev.absX 3679, Ev.btnTouch true, Ev.absY 3800, Ev.syn]).2 =
        [TOut.down 0 320, TOut.move 240 320] ∧
      TOut.down (0 : ℤ) (320 : ℤ) ≠ TOut.down 240 320 := by
  decide

/-- **C7 (amended)**: raw axis updates alone never fire callbacks, and move
events are emitted only at sync boundaries, using the raw sample accumulated
at that boundary; but down events fire immediately when `BTN_TOUCH` arrives,
mapping whatever raw values have been received so far — possibly a
partially-updated frame (the claim's no-partial-sample guarantee holds for
move events, not for down events). -/
theorem C7_amended (cfg : TouchConfig) (regions : List TouchRegion)
    (s : TState) :
    (∀ v, (step cfg regions s (Ev.absX v)).2 = [] ∧
      (step cfg regions s (Ev.absY v)).2 = []) ∧
      (∀ e x y, TOut.move x y ∈ (step cfg regions s e).2 →
        e = Ev.syn ∧ s.is_touching = true ∧
          (x, y) = mapCoordinates cfg s.raw_x s.raw_y) ∧
      (∀ x y, TOut.down x y ∈ (step cfg regions s (Ev.btnTouch true)).2 →
        (x, y) = mapCoordinates cfg s.raw_x s.raw_y) := by
  refine ⟨fun v => ⟨rfl, rfl⟩, ?_, ?_⟩
  · intro e x y hmem
    cases e with
    | absX v => simp [step] at hmem
    | absY v => simp [step] at hmem
    | btnTouch b =>
        cases b
        · simp [step] at hmem
        · simp only [step, List.mem_cons] at hmem
          rcases hmem with h | h
          · exact absurd h (by simp)
          · obtain ⟨n, hn⟩ := checkRegions_mem regions _ _ _ h
            exact absurd hn (by simp)
    | syn =>
        by_cases ht : s.is_touching
        · simp only [step, if_pos ht] at hmem
          by_cases hc : (mapCoordinates cfg s.raw_x s.raw_y).1 ≠ s.touch_x ∨
              (mapCoordinates cfg s.raw_x s.raw_y).2 ≠ s.touch_y
          · rw [if_pos hc] at hmem
            simp at hmem
            exact ⟨rfl, ht, by simp [hmem]⟩
          · rw [if_neg hc] at hmem
            simp at hmem
        · simp only [step, if_neg ht] at hmem
          simp at hmem
  · intro x y hmem
    simp only [step, List.mem_cons] at hmem
    rcases hmem with h | h
    · simp at h
      simp [h]
    · obtain ⟨n, hn⟩ := checkRegions_mem regions _ _ _ h
      exact absurd hn (by simp)

/-- Witness for `C7_amended`: a move fired at a sync boundary from a
concrete touching state carries the mapped current raw sample. -/
theorem C7_amended_witness :
    Ev.syn = Ev.syn ∧
      (⟨3679, 3800, 0, 0, true⟩ : TState).is_touching = true ∧
      ((240 : ℤ), (320 : ℤ)) =
        mapCoordinates defaultConfig
          (⟨3679, 3800, 0, 0, true⟩ : TState).raw_x
          (⟨3679, 3800, 0, 0, true⟩ : TState).raw_y :=
  (C7_amended defaultConfig [] ⟨3679, 3800, 0, 0, true⟩).2.1 Ev.syn 240 320
    (by decide)

/-- **C8**: a stream of two consecutive touching frames that map to the same
screen point — the first frame carrying the contact false→true transition —
produces exactly one down event and no move events; and in general a sync
boundary whose mapped point equals the stored point fires nothing while
touching. -/
theorem C8_move_dedup (cfg : TouchConfig) (rx ry rx2 ry2 : ℤ)
    (hsame : mapCoordinates cfg rx2 ry2 = mapCoordinates cfg rx ry) :
    (run cfg [] initState
        [Ev.absX rx, Ev.absY ry, Ev.btnTouch true, Ev.syn,
          Ev.absX rx2, Ev.absY ry2, Ev.syn]).2 =
      [TOut.down (mapCoordinates cfg rx ry).1 (mapCoordinates cfg rx ry).2] ∧
      (∀ (regions : List TouchRegion) (t : TState), t.is_touching = true →
        mapCoordinates cfg t.raw_x t.raw_y = (t.touch_x, t.touch_y) →
        (step cfg regions t Ev.syn).2 = []) := by
  constructor
  · simp [run, step, checkRegions, initState, hsame]
  · intro regions t ht hmap
    simp [step, ht, hmap]

/-- Witness for `C8_move_dedup`: raw samples (1000, 1000) and (1001, 1000)
map to the same screen point under the default calibration. -/
theorem C8_move_dedup_witness :
    (run defaultConfig [] initState
        [Ev.absX 1000, Ev.absY 1000, Ev.btnTouch true, Ev.syn,
          Ev.absX 1001, Ev.absY 1000, Ev.syn]).2 =
      [TOut.down (mapCoordinates defaultConfig 1000 1000).1
        (mapCoordinates defaultConfig 1000 1000).2] :=
  (C8_move_dedup defaultConfig 1000 1000 1001 1000 (by decide)).1

/-- Splitting `upsConsistent` across a concatenation. -/
lemma upsConsistent_append (a b : List TOut) (p : ℤ × ℤ) :
    upsConsistent (a ++ b) p ↔
      upsConsistent a p ∧ upsConsistent b (recPos a p) := by
  induction a generalizing p with
  | nil => simp [upsConsistent, recPos]
  | cons o rest ih =>
      cases o <;> (simp [upsConsistent, recPos, ih]; try tauto)

/-- Region hits neither report nor update the recorded position. -/
lemma checkRegions_recPos (regions : List TouchRegion) (px py : ℤ)
    (p : ℤ × ℤ) :
    upsConsistent (checkRegions regions px py) p ∧
      recPos (checkRegions regions px py) p = p := by
  induction regions with
  | nil => simp [checkRegions, upsConsistent, recPos]
  | cons r rest ih =>
      simp only [checkRegions]
      by_cases h : containsPoint r px py
      · rw [if_pos h]
        simp [upsConsistent, recPos]
      · rw [if_neg h]
        exact ih

/-- One loop iteration keeps the up-consistency invariant: the outputs are
consistent with the stored position, and the recorded position after the
outputs is the successor state's stored position. -/
lemma step_upsConsistent (cfg : TouchConfig) (regions : List TouchRegion)
    (s : TState) (e : Ev) :
    upsConsistent (step cfg regions s e).2 (s.touch_x, s.touch_y) ∧
      recPos (step cfg regions s e).2 (s.touch_x, s.touch_y) =
        ((step cfg regions s e).1.touch_x, (step cfg regions s e).1.touch_y) := by
  cases e with
  | absX v => simp [step, upsConsistent, recPos]
  | absY v => simp [step, upsConsistent, recPos]
  | btnTouch b =>
      cases b
      · simp [step, upsConsistent, recPos]
      · simp only [step]
        constructor
        · simp only [upsConsistent]
          exact (checkRegions_recPos regions _ _ _).1
        · simp only [recPos]
          simp [(checkRegions_recPos regions _ _ _).2]
  | syn =>
      by_cases ht : s.is_touching
      · by_cases hc : (mapCoordinates cfg s.raw_x s.raw_y).1 ≠ s.touch_x ∨
            (mapCoordinates cfg s.raw_x s.raw_y).2 ≠ s.touch_y
        · simp [step, if_pos ht, if_pos hc, upsConsistent, recPos]
        · simp [step, if_pos ht, if_neg hc, upsConsistent, recPos]
      · simp [step, if_neg ht, upsConsistent, recPos]

/-- The whole run preserves up-consistency from any start state. -/
lemma run_upsConsistent (cfg : TouchConfig) (regions : List TouchRegion) :
    ∀ (es : List Ev) (s : TState),
      upsConsistent (run cfg regions s es).2 (s.touch_x, s.touch_y) := by
  intro es
  induction es with
  | nil => intro s; simp [run, upsConsistent]
  | cons e rest ih =>
      intro s
      simp only [run]
      rw [upsConsistent_append]
      obtain ⟨h1, h2⟩ := step_upsConsistent cfg regions s e
      exact ⟨h1, h2 ▸ ih _⟩

/-- **C10**: in any run of the event loop from the initial state, every up
event reports exactly the screen coordinates recorded by the most recent
down or move event (the initial (0, 0) when none precedes it); raw axis
updates arriving between that event and the release never alter the
reported up position. -/
theorem C10_up_position (cfg : TouchConfig) (regions : List TouchRegion)
    (es : List Ev) :
    upsConsistent (run cfg regions initState es).2 (0, 0) := by
  have h := run_upsConsistent cfg regions es initState
  simpa [initState] using h

end RaspiSong
